import Mathlib

/-!
Verification of the YouTube API wrapper module (`app/api/youtube.py`).

The module has three parts:
* pure video-identifier extraction from web URLs (a regular expression with
  five alternatives, applied with leftmost-match search semantics) and from
  API URIs (last eleven characters);
* a `Video` value object wrapping one service record (a `YouTubeVideoEntry`);
* a `VideoCollection` ordered sequence of `Video`.

The embedding below models strings as `String`/`List Char`, Python exceptions
as `Except PyErr`, the external `yt_service` collaborator as an oracle
function passed explicitly, and `random.choice` as indexing by an arbitrary
oracle number reduced modulo the length.
-/

/-- Python exceptions raised (or propagated) by the module. -/
inductive PyErr where
  /-- `VideoIdentifierError(url)`: no pattern alternative matched `url`. -/
  | videoIdentifierError (url : String) : PyErr
  /-- `IndexError`: out-of-range list indexing (also raised by
  `random.choice` on an empty sequence). -/
  | indexError : PyErr
  /-- An `EmptyCollectionError` as mandated by the design document; the
  source never raises it. -/
  | emptyCollectionError : PyErr
  /-- Any failure reported by the external service collaborator. -/
  | serviceLookupError (msg : String) : PyErr
deriving DecidableEq, Repr

/-! ## The identifier regular expression

The source pattern is
`(?<=(?:v|i)=)[a-zA-Z0-9-]+(?=&)|(?<=(?:v|i)\/)[^&\n]+|(?<=embed\/)[^"&\n]+|(?<=(?:v|i)=)[^&\n]+|(?<=youtu.be\/)[^&\n]+`
searched with `re.search`: starting positions are tried left to right, and at
each position the five alternatives are tried in order; the first success
wins. Lookbehinds are modelled on the reversed text before the position. -/

/-- Membership in the character class `[a-zA-Z0-9-]`. -/
def isIdChar (c : Char) : Bool := c.isAlpha || c.isDigit || c == '-'

/-- Membership in the character class `[^&\n]`. -/
def notAmpNl (c : Char) : Bool := !(c == '&') && !(c == '\n')

/-- Membership in the character class `[^"&\n]`. -/
def notQuoteAmpNl (c : Char) : Bool := !(c == '"') && !(c == '&') && !(c == '\n')

/-- Lookbehind `(?<=(?:v|i)=)`: the reversed text before the position starts
with `=` then `v` or `i`. -/
def lookbehindVEq : List Char → Bool
  | '=' :: 'v' :: _ => true
  | '=' :: 'i' :: _ => true
  | _ => false

/-- Lookbehind `(?<=(?:v|i)\/)`. -/
def lookbehindVSlash : List Char → Bool
  | '/' :: 'v' :: _ => true
  | '/' :: 'i' :: _ => true
  | _ => false

/-- Lookbehind `(?<=embed\/)`. -/
def lookbehindEmbed : List Char → Bool
  | '/' :: 'd' :: 'e' :: 'b' :: 'm' :: 'e' :: _ => true
  | _ => false

/-- Lookbehind `(?<=youtu.be\/)`: nine characters, the unescaped `.`
matching any character except a newline. -/
def lookbehindYoutuBe : List Char → Bool
  | '/' :: 'e' :: 'b' :: c :: 'u' :: 't' :: 'u' :: 'o' :: 'y' :: _ => !(c == '\n')
  | _ => false

/-- Alternative 1, `(?<=(?:v|i)=)[a-zA-Z0-9-]+(?=&)`. The greedy run is the
maximal class run; backtracking cannot help because a shorter run would be
followed by a class character, never `&`. -/
def altA1 (pre rest : List Char) : Option (List Char) :=
  if lookbehindVEq pre then
    let run := rest.takeWhile isIdChar
    if run = [] then none
    else if (rest.drop run.length).head? = some '&' then some run
    else none
  else none

/-- Alternative 2, `(?<=(?:v|i)\/)[^&\n]+`. -/
def altA2 (pre rest : List Char) : Option (List Char) :=
  if lookbehindVSlash pre then
    let run := rest.takeWhile notAmpNl
    if run = [] then none else some run
  else none

/-- Alternative 3, `(?<=embed\/)[^"&\n]+`. -/
def altA3 (pre rest : List Char) : Option (List Char) :=
  if lookbehindEmbed pre then
    let run := rest.takeWhile notQuoteAmpNl
    if run = [] then none else some run
  else none

/-- Alternative 4, `(?<=(?:v|i)=)[^&\n]+`. -/
def altA4 (pre rest : List Char) : Option (List Char) :=
  if lookbehindVEq pre then
    let run := rest.takeWhile notAmpNl
    if run = [] then none else some run
  else none

/-- Alternative 5, `(?<=youtu.be\/)[^&\n]+`. -/
def altA5 (pre rest : List Char) : Option (List Char) :=
  if lookbehindYoutuBe pre then
    let run := rest.takeWhile notAmpNl
    if run = [] then none else some run
  else none

/-- Attempt the five alternatives, in source order, at one position. `pre` is
the reversed text before the position, `rest` the text from it on. -/
def matchAt (pre rest : List Char) : Option (List Char) :=
  match altA1 pre rest with
  | some r => some r
  | none =>
  match altA2 pre rest with
  | some r => some r
  | none =>
  match altA3 pre rest with
  | some r => some r
  | none =>
  match altA4 pre rest with
  | some r => some r
  | none => altA5 pre rest

/-- Leftmost search: try each starting position from the left; the first
position where some alternative matches yields the overall match. At the
final position every alternative needs at least one character, so it is
omitted. -/
def searchAux : List Char → List Char → Option (List Char)
  | _, [] => none
  | pre, c :: rs =>
    match matchAt pre (c :: rs) with
    | some run => some run
    | none => searchAux (c :: pre) rs

/-- Model of `re.search(video_id_re, url)`, returning match group 0. -/
def re_search_video_id (url : String) : Option (List Char) :=
  searchAux [] url.data

/-- Model of `extract_video_id_from_web_url`: search the pattern; if there is
no match raise `VideoIdentifierError(url)`, else return the matched text. -/
def extract_video_id_from_web_url (url : String) : Except PyErr String :=
  match re_search_video_id url with
  | none => .error (.videoIdentifierError url)
  | some run => .ok ⟨run⟩

/-- Model of `extract_video_id_from_api_uri`: Python `uri[-11:]`, the last
eleven characters, or the whole string when it is shorter than eleven. -/
def extract_video_id_from_api_uri (uri : String) : String :=
  ⟨uri.data.drop (uri.data.length - 11)⟩

/-- No lookbehind of any alternative holds at the position whose reversed
left context is `pre`; no alternative can then match there. -/
def noTrig (pre : List Char) : Bool :=
  !(lookbehindVEq pre || lookbehindVSlash pre || lookbehindEmbed pre ||
    lookbehindYoutuBe pre)

/-- Walking the characters of `l` from the position with reversed left
context `pre`, no visited position (the starting one included) has a
matching lookbehind, so the search skips past all of `l`. -/
def scanClear : List Char → List Char → Bool
  | _, [] => true
  | pre, c :: cs => noTrig pre && scanClear (c :: pre) cs

/-! ## Video and VideoCollection

A `gdata.youtube.YouTubeVideoEntry` is opaque to the module: only the
attribute paths `media.title.text`, `media.description.text`,
`media.duration.seconds` and `id.text` are read. `media.duration.seconds`
arrives as a decimal string and is converted with Python `int`. The
module-global `yt_service` collaborator is modelled as an oracle function
`lookup` mapping a video identifier to the entry the service returns, or to
the error it raises. -/

/-- Opaque service record, restricted to the attribute paths the module
reads. -/
structure Entry where
  /-- Field path `media.title.text`. -/
  media_title_text : String
  /-- Field path `media.description.text`. -/
  media_description_text : String
  /-- Field path `media.duration.seconds` (a decimal string). -/
  media_duration_seconds : String
  /-- Field path `id.text`, the API URI of the entry. -/
  id_text : String
deriving DecidableEq, Repr

/-- Opaque `YouTubeVideoFeed` record: the module only iterates `feed.entry`. -/
structure Feed where
  /-- Field `entry`: the ordered entries of the feed. -/
  entry : List Entry
deriving DecidableEq, Repr

/-- Decimal value of a non-empty all-digit character run. -/
def pyDigits (ds : List Char) : Option Nat :=
  if ds = [] then none
  else if ds.all Char.isDigit then
    some (ds.foldl (fun n c => n * 10 + (c.toNat - '0'.toNat)) 0)
  else none

/-- Model of Python `int` applied to the strings this module feeds it: an
optionally sign-prefixed decimal numeral; anything else raises `ValueError`,
modelled by `none`. -/
def pyInt (s : String) : Option Int :=
  match s.data with
  | '-' :: ds => (pyDigits ds).map fun n => -(n : Int)
  | '+' :: ds => (pyDigits ds).map fun n => (n : Int)
  | ds => (pyDigits ds).map fun n => (n : Int)

/-- Model of the `Video` class: `__init__` stores the entry reference as
`self._entry` and nothing else. -/
structure Video where
  /-- The stored `self._entry`. -/
  entry : Entry
deriving DecidableEq, Repr

/-- Model of `Video.title`: `self._entry.media.title.text`. -/
def Video.title (v : Video) : String := v.entry.media_title_text

/-- Model of `Video.description`: `self._entry.media.description.text`. -/
def Video.description (v : Video) : String := v.entry.media_description_text

/-- Model of `Video.duration`: `int(self._entry.media.duration.seconds)`. -/
def Video.duration (v : Video) : Option Int := pyInt v.entry.media_duration_seconds

/-- Model of `Video.from_web_url`: extract the identifier (propagating
`VideoIdentifierError`), call `yt_service.GetYouTubeVideoEntry` — the
`lookup` oracle — and wrap the entry. -/
def Video.from_web_url (lookup : String → Except PyErr Entry) (url : String) :
    Except PyErr Video :=
  match extract_video_id_from_web_url url with
  | .error e => .error e
  | .ok video_id =>
    match lookup video_id with
    | .error e => .error e
    | .ok e => .ok (Video.mk e)

/-- Model of the `VideoCollection` class: delegation-composition around the
internal list `self._videos`. -/
structure VideoCollection where
  /-- The internal `self._videos` list. -/
  videos : List Video
deriving DecidableEq, Repr

/-- Model of `VideoCollection.__init__(videos=[])`: start from a fresh empty
list and append each item of the argument in order. -/
def VideoCollection.init (vs : List Video) : VideoCollection :=
  ⟨vs.foldl (fun acc v => acc ++ [v]) []⟩

/-- Model of `VideoCollection.__init__` called with no argument: the default
`videos=[]`. -/
def VideoCollection.initNoArg : VideoCollection := VideoCollection.init []

/-- Model of `VideoCollection.from_feed`: `videos = []`, append
`Video(entry)` for every entry of `feed.entry` in order, then construct. -/
def VideoCollection.from_feed (feed : Feed) : VideoCollection :=
  VideoCollection.init (feed.entry.foldl (fun acc e => acc ++ [Video.mk e]) [])

/-- Model of `VideoCollection.from_web_urls`: `cls(map(Video.from_web_url,
urls))` — the (eager, Python 2) `map` evaluates left to right and the first
exception aborts the whole call, which `mapM` in `Except` reproduces. -/
def VideoCollection.from_web_urls (lookup : String → Except PyErr Entry)
    (urls : List String) : Except PyErr VideoCollection :=
  (urls.mapM (Video.from_web_url lookup)).map VideoCollection.init

/-- Model of `VideoCollection.__getitem__` for a non-negative index:
delegates to `self._videos.__getitem__`, which raises `IndexError` out of
range. -/
def VideoCollection.getItem (c : VideoCollection) (i : Nat) : Except PyErr Video :=
  match c.videos.get? i with
  | some v => .ok v
  | none => .error .indexError

/-- Model of `VideoCollection.random`: `random.choice(self._videos)`, i.e.
`self._videos[int(random.random() * len(self._videos))]`. The random draw is
an oracle `r`; for a non-empty list `int(random.random() * len)` ranges over
`[0, len)`, modelled as `r % len`. For an empty list the computed index (`r %
0 = r` here, `0` in Python) is out of range either way and list indexing
raises a plain `IndexError`. -/
def VideoCollection.random (c : VideoCollection) (r : Nat) : Except PyErr Video :=
  c.getItem (r % c.videos.length)

/-! ## Heap model for the constructor's copy semantics

Python lists are mutable references. To state that `VideoCollection.__init__`
copies the caller's list rather than aliasing it, lists-of-videos are placed
in an explicit heap (addresses are indices); the constructor reads the
caller's cell, allocates a fresh cell and appends the items one by one. -/

/-- Heap of Python `list` objects holding videos; an address is an index. -/
abbrev PyListHeap := List (List Video)

/-- Model of `VideoCollection.__init__` against the heap: allocate a fresh
empty list (`self._videos = []`) at a new address and append every item of
the caller's list at address `a` in order. Returns the new heap and the
address of the internal list. -/
def videoCollectionInitAlloc (h : PyListHeap) (a : Nat) : PyListHeap × Nat :=
  (h ++ [((h.get? a).getD []).foldl (fun acc v => acc ++ [v]) []], h.length)

/-- Model of the caller mutating its own list at address `a` (re-binding the
cell's contents, e.g. via `append`, `clear` or slice assignment). -/
def heapWrite (h : PyListHeap) (a : Nat) (l : List Video) : PyListHeap :=
  h.set a l

/-- Model of `VideoCollection.__init__` called with no argument, against the
heap: the default `videos=[]` is iterated, so a fresh empty cell is
allocated. -/
def videoCollectionInitAllocNoArg (h : PyListHeap) : PyListHeap × Nat :=
  (h ++ [List.foldl (fun acc v => acc ++ [v]) [] []], h.length)

/-! ## Helper lemmas -/

/-- Appending element by element from the left reproduces list append. -/
theorem foldl_append_singleton {α : Type} (l acc : List α) :
    l.foldl (fun a x => a ++ [x]) acc = acc ++ l := by
  induction l generalizing acc with
  | nil => simp
  | cons x xs ih => simp [List.foldl, ih, List.append_assoc]

/-- The `__init__` copy loop stores exactly the argument sequence. -/
theorem VideoCollection.init_videos (vs : List Video) :
    (VideoCollection.init vs).videos = vs := by
  simp [VideoCollection.init, foldl_append_singleton]

/-- The `from_feed` loop builds one `Video` per entry, in order. -/
theorem VideoCollection.from_feed_videos (feed : Feed) :
    (VideoCollection.from_feed feed).videos = feed.entry.map Video.mk := by
  have h : ∀ (l : List Entry) (acc : List Video),
      l.foldl (fun a e => a ++ [Video.mk e]) acc = acc ++ l.map Video.mk := by
    intro l
    induction l with
    | nil => simp
    | cons x xs ih => intro acc; simp [List.foldl, ih, List.append_assoc]
  simp [VideoCollection.from_feed, VideoCollection.init_videos, h]

/-! ## Claims about the identifier extractor -/

/-- Claim C1: on every supported URL shape — watch-page URL with `v=` or
`vi=` in either query position, embed `<iframe>` snippet, `v/` and `vi/`
path forms, bare-query forms, short-domain `youtu.be` form —
`extract_video_id_from_web_url` returns the literal identifier substring; in
particular it does on
`http://www.youtube.com/watch?v=9bZkp7q19f0&feature=g-all-f`. -/
theorem extract_web_url_supported_shapes :
    extract_video_id_from_web_url "http://www.youtube.com/watch?v=9bZkp7q19f0&feature=g-all-f" = .ok "9bZkp7q19f0" ∧
    extract_video_id_from_web_url "http://www.youtube.com/watch?v=9bZkp7q19f0&feature=g-all-f&context=G27f364eFAAAAAAAAAAA" = .ok "9bZkp7q19f0" ∧
    extract_video_id_from_web_url "http://www.youtube.com/watch?feature=g-all-f&v=9bZkp7q19f0&context=G27f364eFAAAAAAAAAAA" = .ok "9bZkp7q19f0" ∧
    extract_video_id_from_web_url "<iframe width=\"560\" height=\"315\" src=\"http://www.youtube.com/embed/9bZkp7q19f0\" frameborder=\"0\" allowfullscreen></iframe>" = .ok "9bZkp7q19f0" ∧
    extract_video_id_from_web_url "youtube.com/v/9bZkp7q19f0" = .ok "9bZkp7q19f0" ∧
    extract_video_id_from_web_url "youtube.com/vi/9bZkp7q19f0" = .ok "9bZkp7q19f0" ∧
    extract_video_id_from_web_url "youtube.com/?v=9bZkp7q19f0" = .ok "9bZkp7q19f0" ∧
    extract_video_id_from_web_url "youtube.com/?vi=9bZkp7q19f0" = .ok "9bZkp7q19f0" ∧
    extract_video_id_from_web_url "youtube.com/watch?v=9bZkp7q19f0" = .ok "9bZkp7q19f0" ∧
    extract_video_id_from_web_url "youtube.com/watch?vi=9bZkp7q19f0" = .ok "9bZkp7q19f0" ∧
    extract_video_id_from_web_url "youtu.be/9bZkp7q19f0" = .ok "9bZkp7q19f0" :=
  ⟨rfl, rfl, rfl, rfl, rfl, rfl, rfl, rfl, rfl, rfl, rfl⟩

/-- Claim C2: when no alternative of the composite pattern matches the
input, `extract_video_id_from_web_url` fails with a `VideoIdentifierError`
carrying exactly the original input string, and otherwise it succeeds with
the captured substring. -/
theorem extract_web_url_error_carries_input (url : String) :
    (re_search_video_id url = none →
      extract_video_id_from_web_url url = .error (.videoIdentifierError url)) ∧
    (re_search_video_id url ≠ none →
      ∃ v, extract_video_id_from_web_url url = .ok v) := by
  constructor
  · intro h
    simp [extract_video_id_from_web_url, h]
  · intro h
    match hm : re_search_video_id url with
    | none => exact absurd hm h
    | some run => exact ⟨⟨run⟩, by simp [extract_video_id_from_web_url, hm]⟩

/-- Claim C2, witness: the unsupported-platform URL of the doctest fails
with a `VideoIdentifierError` carrying that exact string. -/
theorem extract_web_url_error_carries_input_witness :
    extract_video_id_from_web_url "http://vimeo.com/48100473"
      = .error (.videoIdentifierError "http://vimeo.com/48100473") :=
  (extract_web_url_error_carries_input "http://vimeo.com/48100473").1 rfl

/-- Claim C3: `extract_video_id_from_api_uri` is total (no error path) and
returns the last eleven characters of its input verbatim: the input splits
as an untouched front part followed by the result, the result's length is
`min 11` the input length, a string shorter than eleven characters is
returned whole (a possibly wrong result, not a failure), and the doctest URI
yields `9bZkp7q19f0`. -/
theorem extract_api_uri_last_eleven (uri : String) :
    uri.data.take (uri.data.length - 11) ++ (extract_video_id_from_api_uri uri).data
      = uri.data ∧
    (extract_video_id_from_api_uri uri).data.length = min 11 uri.data.length ∧
    (uri.data.length < 11 → extract_video_id_from_api_uri uri = uri) ∧
    extract_video_id_from_api_uri "http://gdata.youtube.com/feeds/api/videos/9bZkp7q19f0"
      = "9bZkp7q19f0" := by
  refine ⟨?_, ?_, ?_, rfl⟩
  · simp [extract_video_id_from_api_uri]
  · simp [extract_video_id_from_api_uri]
    omega
  · intro h
    have hz : uri.data.length - 11 = 0 := by omega
    simp only [extract_video_id_from_api_uri, hz, List.drop_zero]

/-- Claim C3, witness: a five-character string is shorter than eleven and is
returned whole rather than causing a failure. -/
theorem extract_api_uri_last_eleven_witness :
    extract_video_id_from_api_uri "short" = "short" :=
  (extract_api_uri_last_eleven "short").2.2.1 (by decide)

/-! ## Claims about Video and VideoCollection -/

/-- Bind on a failed `Except` computation short-circuits. -/
theorem exceptErrorBind {ε α β : Type} (e : ε) (k : α → Except ε β) :
    (Except.error e >>= k) = Except.error e := rfl

/-- Bind on a successful `Except` computation applies the continuation. -/
theorem exceptOkBind {ε α β : Type} (a : α) (k : α → Except ε β) :
    (Except.ok a >>= k : Except ε β) = k a := rfl

/-- Claim C4, code behavior: `VideoCollection.random` on a non-empty
collection returns an element of the collection for every random draw, but
on an empty collection it raises the generic `IndexError` coming from
`random.choice` indexing an empty list — not the `EmptyCollectionError` the
design mandates, which the source never defines or raises. -/
theorem random_choice_code_behavior :
    (∀ (c : VideoCollection) (r : Nat), c.videos ≠ [] →
      ∃ v, c.random r = .ok v ∧ v ∈ c.videos) ∧
    (∀ r : Nat, (VideoCollection.init []).random r = .error PyErr.indexError) ∧
    PyErr.indexError ≠ PyErr.emptyCollectionError := by
  refine ⟨?_, ?_, by decide⟩
  · intro c r h
    have hlen : 0 < c.videos.length := List.length_pos.mpr h
    have hi : r % c.videos.length < c.videos.length := Nat.mod_lt _ hlen
    refine ⟨c.videos.get ⟨r % c.videos.length, hi⟩, ?_, List.get_mem ..⟩
    simp [VideoCollection.random, VideoCollection.getItem, List.get?_eq_getElem?,
      List.getElem?_eq_getElem hi]
  · intro r
    simp [VideoCollection.random, VideoCollection.getItem, VideoCollection.init]

/-- Claim C4, witness: a concrete one-element collection yields a member for
the draw `5`, and the concrete empty collection yields `IndexError`. -/
theorem random_choice_code_behavior_witness :
    (∃ v, (VideoCollection.init [Video.mk ⟨"t", "d", "212", "u"⟩]).random 5 = .ok v ∧
      v ∈ (VideoCollection.init [Video.mk ⟨"t", "d", "212", "u"⟩]).videos) ∧
    (VideoCollection.init []).random 0 = .error PyErr.indexError :=
  ⟨random_choice_code_behavior.1 (VideoCollection.init [Video.mk ⟨"t", "d", "212", "u"⟩])
      5 (by decide),
    random_choice_code_behavior.2.1 0⟩

/-- Claim C5: `from_web_urls` is all-or-nothing. If some URL in the input
fails identifier extraction, the whole call fails (no partial collection);
when moreover every service lookup succeeds, the error raised is the
`VideoIdentifierError` of an offending URL. When every extraction and lookup
succeeds, the call returns a collection with one video per URL, in order
(`List.Forall₂` pairs each URL with its video positionally). -/
theorem from_web_urls_all_or_nothing (lookup : String → Except PyErr Entry)
    (urls : List String) :
    ((∃ u ∈ urls, re_search_video_id u = none) →
      (∃ e, VideoCollection.from_web_urls lookup urls = .error e) ∧
      ((∀ s, ∃ en, lookup s = .ok en) →
        ∃ u2 ∈ urls, VideoCollection.from_web_urls lookup urls
            = .error (.videoIdentifierError u2) ∧ re_search_video_id u2 = none)) ∧
    ((∀ u ∈ urls, ∃ v, Video.from_web_url lookup u = .ok v) →
      ∃ c, VideoCollection.from_web_urls lookup urls = .ok c ∧
        List.Forall₂ (fun u v => Video.from_web_url lookup u = .ok v) urls c.videos) := by
  constructor
  · intro hbad
    constructor
    · obtain ⟨e, he⟩ : ∃ e, urls.mapM (Video.from_web_url lookup) = .error e := by
        induction urls with
        | nil => simp at hbad
        | cons u us ih =>
          match hu : Video.from_web_url lookup u with
          | .error e0 => exact ⟨e0, by rw [List.mapM_cons, hu, exceptErrorBind]⟩
          | .ok v =>
            have : ∃ u0 ∈ us, re_search_video_id u0 = none := by
              obtain ⟨u0, hm, hn⟩ := hbad
              rcases List.mem_cons.mp hm with rfl | hm2
              · exfalso
                simp [Video.from_web_url, extract_video_id_from_web_url, hn] at hu
              · exact ⟨u0, hm2, hn⟩
            obtain ⟨e1, he1⟩ := ih this
            exact ⟨e1, by rw [List.mapM_cons, hu, exceptOkBind, he1, exceptErrorBind]⟩
      exact ⟨e, by simp only [VideoCollection.from_web_urls]; rw [he]; rfl⟩
    · intro hlk
      obtain ⟨u2, hm, he, hn⟩ :
          ∃ u2 ∈ urls, urls.mapM (Video.from_web_url lookup)
              = .error (.videoIdentifierError u2) ∧ re_search_video_id u2 = none := by
        induction urls with
        | nil => simp at hbad
        | cons u us ih =>
          match hn : re_search_video_id u with
          | none =>
            refine ⟨u, List.mem_cons_self .., ?_, hn⟩
            have : Video.from_web_url lookup u = .error (.videoIdentifierError u) := by
              simp [Video.from_web_url, extract_video_id_from_web_url, hn]
            rw [List.mapM_cons, this, exceptErrorBind]
          | some run =>
            have hbad2 : ∃ u0 ∈ us, re_search_video_id u0 = none := by
              obtain ⟨u0, hm, hn0⟩ := hbad
              rcases List.mem_cons.mp hm with rfl | hm2
              · exact absurd hn0 (by simp [hn])
              · exact ⟨u0, hm2, hn0⟩
            obtain ⟨u2, hm2, he2, hn2⟩ := ih hbad2
            obtain ⟨en, hen⟩ := hlk ⟨run⟩
            have hu : Video.from_web_url lookup u = .ok (Video.mk en) := by
              simp [Video.from_web_url, extract_video_id_from_web_url, hn, hen]
            exact ⟨u2, List.mem_cons_of_mem _ hm2,
              by rw [List.mapM_cons, hu, exceptOkBind, he2, exceptErrorBind], hn2⟩
      exact ⟨u2, hm, by simp only [VideoCollection.from_web_urls]; rw [he]; rfl, hn⟩
  · intro hok
    obtain ⟨vs, hvs, hf⟩ : ∃ vs, urls.mapM (Video.from_web_url lookup) = .ok vs ∧
        List.Forall₂ (fun u v => Video.from_web_url lookup u = .ok v) urls vs := by
      induction urls with
      | nil => exact ⟨[], rfl, List.Forall₂.nil⟩
      | cons u us ih =>
        obtain ⟨v, hv⟩ := hok u (List.mem_cons_self ..)
        obtain ⟨vs, hvs, hf⟩ := ih fun u0 h0 => hok u0 (List.mem_cons_of_mem _ h0)
        exact ⟨v :: vs, by rw [List.mapM_cons, hv, exceptOkBind, hvs, exceptOkBind]; rfl,
          List.Forall₂.cons hv hf⟩
    exact ⟨VideoCollection.init vs,
      by simp only [VideoCollection.from_web_urls]; rw [hvs]; rfl,
      by simpa [VideoCollection.init_videos] using hf⟩

/-- Claim C5, witness: with an always-succeeding lookup, a batch containing
the unsupported vimeo URL fails whole with that URL's
`VideoIdentifierError`, and a batch of two good URLs yields a collection
paired one-to-one, in order, with the URLs. -/
theorem from_web_urls_all_or_nothing_witness :
    (∃ e, VideoCollection.from_web_urls (fun s => .ok ⟨"t", "d", "212", s⟩)
        ["youtu.be/9bZkp7q19f0", "http://vimeo.com/48100473"] = .error e) ∧
    (∃ u2 ∈ ["youtu.be/9bZkp7q19f0", "http://vimeo.com/48100473"],
      VideoCollection.from_web_urls (fun s => .ok ⟨"t", "d", "212", s⟩)
          ["youtu.be/9bZkp7q19f0", "http://vimeo.com/48100473"]
        = .error (.videoIdentifierError u2) ∧ re_search_video_id u2 = none) ∧
    (∃ c, VideoCollection.from_web_urls (fun s => .ok ⟨"t", "d", "212", s⟩)
        ["youtu.be/9bZkp7q19f0", "youtube.com/v/dQw4w9WgXcQ"] = .ok c ∧
      List.Forall₂
        (fun u v => Video.from_web_url (fun s => .ok ⟨"t", "d", "212", s⟩) u = .ok v)
        ["youtu.be/9bZkp7q19f0", "youtube.com/v/dQw4w9WgXcQ"] c.videos) := by
  refine ⟨?_, ?_, ?_⟩
  · exact (from_web_urls_all_or_nothing _ _).1
      ⟨"http://vimeo.com/48100473", by decide, rfl⟩ |>.1
  · exact ((from_web_urls_all_or_nothing _ _).1
      ⟨"http://vimeo.com/48100473", by decide, rfl⟩).2 (fun s => ⟨⟨"t", "d", "212", s⟩, rfl⟩)
  · refine (from_web_urls_all_or_nothing _ _).2 ?_
    intro u hu
    rcases List.mem_cons.mp hu with rfl | hu2
    · exact ⟨Video.mk ⟨"t", "d", "212", "9bZkp7q19f0"⟩, rfl⟩
    · rcases List.mem_cons.mp hu2 with rfl | hu3
      · exact ⟨Video.mk ⟨"t", "d", "212", "dQw4w9WgXcQ"⟩, rfl⟩
      · exact absurd hu3 (by simp)

/-- Claim C6: `from_feed` wraps each feed entry directly as a `Video` with
no per-entry lookup (its model takes no `lookup` oracle at all), the
collection's length equals the number of feed entries, and entry order is
preserved: index `i` holds the video wrapping entry `i`. -/
theorem from_feed_order_and_length (feed : Feed) :
    (VideoCollection.from_feed feed).videos.length = feed.entry.length ∧
    (∀ i e, feed.entry.get? i = some e →
      (VideoCollection.from_feed feed).getItem i = .ok (Video.mk e)) := by
  constructor
  · simp [VideoCollection.from_feed_videos]
  · intro i e hget
    rw [List.get?_eq_getElem?] at hget
    simp [VideoCollection.getItem, VideoCollection.from_feed_videos,
      List.get?_eq_getElem?, List.getElem?_map, hget]

/-- Claim C6, witness: a three-entry feed `[A, B, C]` yields a collection of
length three whose indices `0`, `1`, `2` hold `A`, `B`, `C`. -/
theorem from_feed_order_and_length_witness :
    (VideoCollection.from_feed ⟨[⟨"a", "da", "1", "ia"⟩, ⟨"b", "db", "2", "ib"⟩,
        ⟨"c", "dc", "3", "ic"⟩]⟩).videos.length = 3 ∧
    (VideoCollection.from_feed ⟨[⟨"a", "da", "1", "ia"⟩, ⟨"b", "db", "2", "ib"⟩,
        ⟨"c", "dc", "3", "ic"⟩]⟩).getItem 0 = .ok (Video.mk ⟨"a", "da", "1", "ia"⟩) ∧
    (VideoCollection.from_feed ⟨[⟨"a", "da", "1", "ia"⟩, ⟨"b", "db", "2", "ib"⟩,
        ⟨"c", "dc", "3", "ic"⟩]⟩).getItem 1 = .ok (Video.mk ⟨"b", "db", "2", "ib"⟩) ∧
    (VideoCollection.from_feed ⟨[⟨"a", "da", "1", "ia"⟩, ⟨"b", "db", "2", "ib"⟩,
        ⟨"c", "dc", "3", "ic"⟩]⟩).getItem 2 = .ok (Video.mk ⟨"c", "dc", "3", "ic"⟩) :=
  ⟨(from_feed_order_and_length _).1,
   (from_feed_order_and_length _).2 0 _ rfl,
   (from_feed_order_and_length _).2 1 _ rfl,
   (from_feed_order_and_length _).2 2 _ rfl⟩

/-- Claim C8: a `Video` constructed from a record stores only the record
reference (no validation), `title` and `description` read back exactly the
record's text fields with no transformation, and `duration` is the record's
duration field put through the integer conversion `pyInt` — e.g. the string
`"212"` becomes the integer `212`. -/
theorem video_projection_roundtrip (e : Entry) :
    (Video.mk e).entry = e ∧
    (Video.mk e).title = e.media_title_text ∧
    (Video.mk e).description = e.media_description_text ∧
    (Video.mk e).duration = pyInt e.media_duration_seconds ∧
    pyInt "212" = some 212 :=
  ⟨rfl, rfl, rfl, rfl, by decide⟩

/-- Claim C10: the constructor copies the caller's list into a fresh heap
cell, so mutating the caller's list afterwards leaves the collection's cell
— contents and hence length — unchanged, and construction with no argument
yields a collection of length zero. -/
theorem init_copies_caller_list (h : PyListHeap) (a : Nat) (l2 : List Video)
    (ha : a < h.length) :
    (heapWrite (videoCollectionInitAlloc h a).1 a l2).get?
        (videoCollectionInitAlloc h a).2 = some ((h.get? a).getD []) ∧
    ((videoCollectionInitAllocNoArg h).1.get? (videoCollectionInitAllocNoArg h).2
        = some [] ∧ ([] : List Video).length = 0) := by
  constructor
  · have hne : a ≠ h.length := Nat.ne_of_lt ha
    simp only [videoCollectionInitAlloc, heapWrite, foldl_append_singleton,
      List.nil_append, List.get?_eq_getElem?]
    rw [List.getElem?_set_ne hne, List.getElem?_concat_length]
  · simp [videoCollectionInitAllocNoArg, List.get?_eq_getElem?,
      List.getElem?_concat_length]

/-- Claim C10, witness: a one-cell heap holding one video; after
construction from that cell and a subsequent overwrite of the caller's cell,
the collection's cell still holds the original one-video list. -/
theorem init_copies_caller_list_witness :
    (heapWrite (videoCollectionInitAlloc [[Video.mk ⟨"t", "d", "212", "u"⟩]] 0).1 0 []).get?
        (videoCollectionInitAlloc [[Video.mk ⟨"t", "d", "212", "u"⟩]] 0).2
      = some [Video.mk ⟨"t", "d", "212", "u"⟩] :=
  (init_copies_caller_list [[Video.mk ⟨"t", "d", "212", "u"⟩]] 0 [] (by decide)).1

/-! ## Soundness of the pattern alternatives (for the implicit invariant) -/

/-- A character of the class `[a-zA-Z0-9-]` is neither `&` nor a newline. -/
theorem isIdChar_no_amp_nl {c : Char} (h : isIdChar c = true) :
    c ≠ '&' ∧ c ≠ '\n' := by
  constructor <;> rintro rfl <;> revert h <;> decide

/-- A character of the class `[^&\n]` is neither `&` nor a newline. -/
theorem notAmpNl_no_amp_nl {c : Char} (h : notAmpNl c = true) :
    c ≠ '&' ∧ c ≠ '\n' := by
  simp only [notAmpNl, Bool.and_eq_true, Bool.not_eq_true', beq_eq_false_iff_ne] at h
  exact h

/-- A character of the class `[^"&\n]` is neither `&` nor a newline. -/
theorem notQuoteAmpNl_no_amp_nl {c : Char} (h : notQuoteAmpNl c = true) :
    c ≠ '&' ∧ c ≠ '\n' := by
  simp only [notQuoteAmpNl, Bool.and_eq_true, Bool.not_eq_true', beq_eq_false_iff_ne] at h
  exact ⟨h.1.2, h.2⟩

/-- Shape shared by alternatives 2 to 5: a guarded non-empty `takeWhile` run.
Every matched character satisfies the run's class. -/
theorem altRun_sound {p : Char → Bool} {b : Bool} {rest run : List Char}
    (h : (if b = true then
        if rest.takeWhile p = [] then none else some (rest.takeWhile p)
      else none) = some run) :
    run ≠ [] ∧ ∀ c ∈ run, p c = true := by
  split at h
  · split at h
    · simp at h
    · rename_i hne
      cases h
      exact ⟨hne, fun c hc => List.mem_takeWhile_imp hc⟩
  · simp at h

/-- Alternative 1 also only captures class characters and captures at least
one. -/
theorem altA1_sound {pre rest run : List Char} (h : altA1 pre rest = some run) :
    run ≠ [] ∧ ∀ c ∈ run, isIdChar c = true := by
  simp only [altA1] at h
  split at h
  · split at h
    · simp at h
    · split at h
      · rename_i hne _
        cases h
        exact ⟨hne, fun c hc => List.mem_takeWhile_imp hc⟩
      · simp at h
  · simp at h

/-- Whatever alternative matches at a position, the captured text is
non-empty and free of `&` and newline characters. -/
theorem matchAt_sound {pre rest run : List Char} (h : matchAt pre rest = some run) :
    run ≠ [] ∧ ∀ c ∈ run, c ≠ '&' ∧ c ≠ '\n' := by
  unfold matchAt at h
  cases h1 : altA1 pre rest with
  | some r =>
    rw [h1] at h
    cases h
    obtain ⟨hne, hall⟩ := altA1_sound h1
    exact ⟨hne, fun c hc => isIdChar_no_amp_nl (hall c hc)⟩
  | none =>
    rw [h1] at h
    cases h2 : altA2 pre rest with
    | some r =>
      rw [h2] at h
      cases h
      obtain ⟨hne, hall⟩ := altRun_sound (by simpa only [altA2] using h2)
      exact ⟨hne, fun c hc => notAmpNl_no_amp_nl (hall c hc)⟩
    | none =>
      rw [h2] at h
      cases h3 : altA3 pre rest with
      | some r =>
        rw [h3] at h
        cases h
        obtain ⟨hne, hall⟩ := altRun_sound (by simpa only [altA3] using h3)
        exact ⟨hne, fun c hc => notQuoteAmpNl_no_amp_nl (hall c hc)⟩
      | none =>
        rw [h3] at h
        cases h4 : altA4 pre rest with
        | some r =>
          rw [h4] at h
          cases h
          obtain ⟨hne, hall⟩ := altRun_sound (by simpa only [altA4] using h4)
          exact ⟨hne, fun c hc => notAmpNl_no_amp_nl (hall c hc)⟩
        | none =>
          rw [h4] at h
          obtain ⟨hne, hall⟩ := altRun_sound (by simpa only [altA5] using h)
          exact ⟨hne, fun c hc => notAmpNl_no_amp_nl (hall c hc)⟩

/-- The leftmost search only ever returns text captured by some alternative. -/
theorem searchAux_sound {rest : List Char} :
    ∀ {pre run : List Char}, searchAux pre rest = some run →
      run ≠ [] ∧ ∀ c ∈ run, c ≠ '&' ∧ c ≠ '\n' := by
  induction rest with
  | nil => intro pre run h; simp [searchAux] at h
  | cons c rs ih =>
    intro pre run h
    rw [searchAux] at h
    cases hm : matchAt pre (c :: rs) with
    | some r =>
      rw [hm] at h
      cases h
      exact matchAt_sound hm
    | none =>
      rw [hm] at h
      exact ih h

/-- Claim C9 (implicit): whenever `extract_video_id_from_web_url` succeeds,
the returned identifier is a non-empty string containing no `&` and no
newline character. -/
theorem extract_web_url_result_invariant (url r : String)
    (h : extract_video_id_from_web_url url = .ok r) :
    r ≠ "" ∧ ∀ c ∈ r.data, c ≠ '&' ∧ c ≠ '\n' := by
  unfold extract_video_id_from_web_url at h
  cases hm : re_search_video_id url with
  | none => rw [hm] at h; simp at h
  | some run =>
    rw [hm] at h
    cases h
    unfold re_search_video_id at hm
    obtain ⟨hne, hall⟩ := searchAux_sound hm
    refine ⟨?_, hall⟩
    intro hempty
    exact hne (congrArg String.data hempty)

/-- Claim C9, witness: the identifier extracted from the short-domain
doctest URL is non-empty and free of `&` and newline. -/
theorem extract_web_url_result_invariant_witness :
    ("9bZkp7q19f0" : String) ≠ "" ∧
    ∀ c ∈ ("9bZkp7q19f0" : String).data, c ≠ '&' ∧ c ≠ '\n' :=
  extract_web_url_result_invariant "youtu.be/9bZkp7q19f0" "9bZkp7q19f0" rfl

/-! ## Query-parameter order (claim C7)

The pattern is searched with leftmost-match semantics, so a parameter whose
text itself ends a lookbehind (such as `si=abc`, whose `i=` triggers
alternative 1/4) steals the match when it comes first. Order insensitivity
therefore fails in general; it does hold whenever the surrounding text
triggers no lookbehind, as with the spec's `feature=x` example, which is
proved below for every identifier. -/

/-- Dropping a `takeWhile` run reaches exactly the `dropWhile` remainder. -/
theorem dropLen_takeWhile {α : Type} (p : α → Bool) (l : List α) :
    l.drop (l.takeWhile p).length = l.dropWhile p := by
  have h := List.drop_left (l.takeWhile p) (l.dropWhile p)
  rw [List.takeWhile_append_dropWhile] at h
  exact h

/-- A maximal run that spans the whole length is the whole list. -/
theorem takeWhile_eq_self_of_length {α : Type} {p : α → Bool} {l : List α}
    (h : (l.takeWhile p).length = l.length) : l.takeWhile p = l := by
  induction l with
  | nil => rfl
  | cons x xs ih =>
    by_cases hx : p x
    · simp only [List.takeWhile_cons, hx, if_true, List.length_cons,
        Nat.add_right_cancel_iff] at h ⊢
      rw [ih h]
    · simp [List.takeWhile_cons, hx] at h

/-- Alternative 1 can never match when the text ahead contains no `&`: its
mandatory lookahead reads the character right after the maximal class run,
which is either absent or a non-`&` character of the text. -/
theorem altA1_none_of_no_amp {pre rest : List Char}
    (hamp : ∀ c ∈ rest, c ≠ '&') : altA1 pre rest = none := by
  simp only [altA1]
  split
  · split
    · rfl
    · split
      · rename_i hhead
        exfalso
        rw [dropLen_takeWhile] at hhead
        have hmem : '&' ∈ rest.dropWhile isIdChar := by
          cases hdw : rest.dropWhile isIdChar with
          | nil => rw [hdw] at hhead; simp at hhead
          | cons x tl =>
            rw [hdw] at hhead
            simp only [List.head?_cons, Option.some.injEq] at hhead
            rw [hhead] at hdw ⊢
            exact List.mem_cons_self ..
        exact hamp '&' ((List.dropWhile_sublist isIdChar).subset hmem) rfl
      · rfl
  · rfl

/-- When no lookbehind triggers at a position, no alternative matches. -/
theorem matchAt_none_of_noTrig {pre rest : List Char} (h : noTrig pre = true) :
    matchAt pre rest = none := by
  simp only [noTrig, Bool.not_eq_eq_eq_not, Bool.not_true, Bool.or_eq_false_iff] at h
  obtain ⟨⟨⟨h1, h2⟩, h3⟩, h4⟩ := h
  simp [matchAt, altA1, altA2, altA3, altA4, altA5, h1, h2, h3, h4]

/-- The search skips over a stretch of positions none of which triggers a
lookbehind, accumulating the skipped text into the left context. -/
theorem searchAux_skip (l : List Char) : ∀ (pre rest : List Char),
    scanClear pre l = true →
    searchAux pre (l ++ rest) = searchAux (l.reverse ++ pre) rest := by
  induction l with
  | nil => intro pre rest _; simp
  | cons c cs ih =>
    intro pre rest h
    simp only [scanClear, Bool.and_eq_true] at h
    have hm : matchAt pre (c :: (cs ++ rest)) = none := matchAt_none_of_noTrig h.1
    rw [List.cons_append, searchAux, hm]
    show searchAux (c :: pre) (cs ++ rest) = _
    rw [ih (c :: pre) rest h.2]
    simp [List.append_assoc]

/-- A successful position attempt ends the search with that match. -/
theorem searchAux_of_matchAt {pre rest run : List Char} (hne : rest ≠ [])
    (hm : matchAt pre rest = some run) : searchAux pre rest = some run := by
  cases rest with
  | nil => exact absurd rfl hne
  | cons c cs => rw [searchAux, hm]

/-- At a position whose left context ends with `v=` or `i=` (and matches no
other lookbehind), with the whole remaining text free of `&` and newlines,
the match is alternative 4's run: the entire remaining text. -/
theorem matchAt_veq {pre rest : List Char} (hlb1 : lookbehindVEq pre = true)
    (hlb2 : lookbehindVSlash pre = false) (hlb3 : lookbehindEmbed pre = false)
    (hne : rest ≠ []) (hamp : ∀ c ∈ rest, c ≠ '&') (hnl : ∀ c ∈ rest, c ≠ '\n') :
    matchAt pre rest = some rest := by
  have hA1 : altA1 pre rest = none := altA1_none_of_no_amp hamp
  have hall : ∀ c ∈ rest, notAmpNl c = true := fun c hc => by
    simp [notAmpNl, hamp c hc, hnl c hc]
  have hrun : rest.takeWhile notAmpNl = rest := List.takeWhile_eq_self_iff.mpr hall
  have hA2 : altA2 pre rest = none := by simp [altA2, hlb2]
  have hA3 : altA3 pre rest = none := by simp [altA3, hlb3]
  have hA4 : altA4 pre rest = some rest := by simp [altA4, hlb1, hrun, hne]
  unfold matchAt
  rw [hA1, hA2, hA3, hA4]

/-- At a position whose left context ends with `v=` or `i=` (and matches no
other lookbehind), with text `xs & sfx` ahead where `xs` is non-empty and
free of `&` and newlines, the match captures exactly `xs`: alternative 1
takes it when `xs` is all class characters (the lookahead sees the `&`),
otherwise alternative 1 fails and alternative 4 stops at the `&`. -/
theorem matchAt_veq_amp {pre xs sfx : List Char} (hlb1 : lookbehindVEq pre = true)
    (hlb2 : lookbehindVSlash pre = false) (hlb3 : lookbehindEmbed pre = false)
    (hne : xs ≠ []) (hamp : ∀ c ∈ xs, c ≠ '&') (hnl : ∀ c ∈ xs, c ≠ '\n') :
    matchAt pre (xs ++ '&' :: sfx) = some xs := by
  have hallAmp : ∀ c ∈ xs, notAmpNl c = true := fun c hc => by
    simp [notAmpNl, hamp c hc, hnl c hc]
  have hampFalse : notAmpNl '&' = false := by decide
  have hA4run : (xs ++ '&' :: sfx).takeWhile notAmpNl = xs := by
    rw [List.takeWhile_append_of_pos hallAmp, List.takeWhile_cons, hampFalse]
    simp
  have hA4 : altA4 pre (xs ++ '&' :: sfx) = some xs := by
    simp [altA4, hlb1, hA4run, hne]
  by_cases hfull : (xs.takeWhile isIdChar).length = xs.length
  · have hx : xs.takeWhile isIdChar = xs := takeWhile_eq_self_of_length hfull
    have hidFalse : isIdChar '&' = false := by decide
    have htw : (xs ++ '&' :: sfx).takeWhile isIdChar = xs := by
      rw [List.takeWhile_append_of_pos (List.takeWhile_eq_self_iff.mp hx),
        List.takeWhile_cons, hidFalse]
      simp
    have hdrop : ((xs ++ '&' :: sfx).drop xs.length).head? = some '&' := by
      rw [List.drop_left]
      rfl
    have hA1 : altA1 pre (xs ++ '&' :: sfx) = some xs := by
      simp [altA1, hlb1, htw, hne, hdrop]
    unfold matchAt
    rw [hA1]
  · have hxd : xs.dropWhile isIdChar ≠ [] := by
      intro hnil
      apply hfull
      have hsplit := List.takeWhile_append_dropWhile isIdChar xs
      rw [hnil, List.append_nil] at hsplit
      rw [hsplit]
    have hdw : (xs ++ '&' :: sfx).dropWhile isIdChar
        = xs.dropWhile isIdChar ++ '&' :: sfx := by
      rw [List.dropWhile_append]
      simp [List.isEmpty_eq_true, hxd]
    obtain ⟨d, ds, hds⟩ : ∃ d ds, xs.dropWhile isIdChar = d :: ds := by
      cases hcase : xs.dropWhile isIdChar with
      | nil => exact absurd hcase hxd
      | cons d ds => exact ⟨d, ds, rfl⟩
    have hdmem : d ∈ xs :=
      (List.dropWhile_sublist isIdChar).subset (hds ▸ List.mem_cons_self ..)
    have hA1 : altA1 pre (xs ++ '&' :: sfx) = none := by
      simp only [altA1]
      split
      · split
        · rfl
        · split
          · rename_i hhead
            exfalso
            rw [dropLen_takeWhile, hdw, hds] at hhead
            simp only [List.cons_append, List.head?_cons, Option.some.injEq] at hhead
            exact hamp d hdmem hhead
          · rfl
      · rename_i hcontra
        exact absurd hlb1 hcontra
    have hA2 : altA2 pre (xs ++ '&' :: sfx) = none := by simp [altA2, hlb2]
    have hA3 : altA3 pre (xs ++ '&' :: sfx) = none := by simp [altA3, hlb3]
    unfold matchAt
    rw [hA1, hA2, hA3, hA4]

/-- Claim C7, counterexample: the claim fails as stated. For the identifier
`9bZkp7q19f0` and the parameter text `si=abc`, the URL with `v=` first
yields the identifier, but the permuted URL with the parameter first yields
`abc` — the `i=` of `si=` triggers the pattern at an earlier position. -/
theorem query_order_counterexample :
    extract_video_id_from_web_url "youtube.com/watch?v=9bZkp7q19f0&si=abc"
      = .ok "9bZkp7q19f0" ∧
    extract_video_id_from_web_url "youtube.com/watch?si=abc&v=9bZkp7q19f0"
      = .ok "abc" ∧
    ("abc" : String) ≠ "9bZkp7q19f0" :=
  ⟨rfl, rfl, by decide⟩

/-- Claim C7, amended: order insensitivity holds when the other parameter
text triggers no alternative of the pattern, as with the spec's own
`feature=x` example: for every non-empty identifier `X` free of `&` and
newline, `youtube.com/watch?v=X&feature=x` and
`youtube.com/watch?feature=x&v=X` both yield exactly `X`. -/
theorem query_order_insensitive_amended (X : String) (hne : X.data ≠ [])
    (hfree : ∀ c ∈ X.data, c ≠ '&' ∧ c ≠ '\n') :
    extract_video_id_from_web_url ("youtube.com/watch?v=" ++ X ++ "&feature=x")
      = .ok X ∧
    extract_video_id_from_web_url ("youtube.com/watch?feature=x&v=" ++ X)
      = .ok X := by
  have hamp : ∀ c ∈ X.data, c ≠ '&' := fun c hc => (hfree c hc).1
  have hnl : ∀ c ∈ X.data, c ≠ '\n' := fun c hc => (hfree c hc).2
  constructor
  · have hdata : ("youtube.com/watch?v=" ++ X ++ "&feature=x").data
        = "youtube.com/watch?v=".data ++ (X.data ++ '&' :: "feature=x".data) := by
      cases X
      simp [List.append_assoc]
    have hm : matchAt ("youtube.com/watch?v=".data.reverse ++ [])
        (X.data ++ '&' :: "feature=x".data) = some X.data :=
      matchAt_veq_amp (by decide) (by decide) (by decide) hne hamp hnl
    have hsearch : re_search_video_id ("youtube.com/watch?v=" ++ X ++ "&feature=x")
        = some X.data := by
      unfold re_search_video_id
      rw [hdata, searchAux_skip _ _ _ (by decide)]
      exact searchAux_of_matchAt (by simp) hm
    unfold extract_video_id_from_web_url
    rw [hsearch]
  · have hdata : ("youtube.com/watch?feature=x&v=" ++ X).data
        = "youtube.com/watch?feature=x&v=".data ++ X.data := by
      cases X
      simp
    have hm : matchAt ("youtube.com/watch?feature=x&v=".data.reverse ++ []) X.data
        = some X.data :=
      matchAt_veq (by decide) (by decide) (by decide) hne hamp hnl
    have hsearch : re_search_video_id ("youtube.com/watch?feature=x&v=" ++ X)
        = some X.data := by
      unfold re_search_video_id
      rw [hdata, searchAux_skip _ _ _ (by decide)]
      exact searchAux_of_matchAt hne hm
    unfold extract_video_id_from_web_url
    rw [hsearch]

/-- Claim C7, witness: the amended statement at the spec's own identifier. -/
theorem query_order_insensitive_amended_witness :
    extract_video_id_from_web_url ("youtube.com/watch?v=" ++ "9bZkp7q19f0" ++ "&feature=x")
      = .ok "9bZkp7q19f0" ∧
    extract_video_id_from_web_url ("youtube.com/watch?feature=x&v=" ++ "9bZkp7q19f0")
      = .ok "9bZkp7q19f0" :=
  query_order_insensitive_amended "9bZkp7q19f0" (by decide) (by decide)
